import Mathlib

/-!
Shallow embedding of the PoGit template-aggregation writer
(`src/pogit/writer.py`, function `WriteSimulationFiles`) and of the
`Particle` domain object (`src/pogit/particle.py`).

Modelling conventions:
* Python dicts are ordered association lists with unique keys:
  assignment to an existing key keeps its position, a new key is
  appended at the end (CPython insertion-order semantics).
* Floating point numbers never decide any verified property; every
  Python float enters the model already formatted as the string the
  code would later produce with its fixed format.
* The Mako template engine and the codelet snippet texts (module
  `pogit.codelets`, not present under `src/`) are external
  collaborators per spec section 1 ("treated as an opaque function
  `Render(templateText, context) -> string`"); they are modelled by an
  abstract rendering function supplied as a parameter.
* The file system is a list of `path, contents` pairs; writing a file
  overwrites the entry at that path.
-/

namespace Pogit

/-- Values stored in a Python parameter dictionary or render context:
strings, ints, `None`, or a leftover list of strings (the writer can in
principle leave an unjoined list in the context). -/
inductive Val where
  | vstr (s : String)
  | vint (n : Int)
  | vnone
  | vlist (l : List String)
deriving DecidableEq, Repr

deriving instance DecidableEq for Except

/-- Lookup in an ordered association list (Python `d[k]` / `k in d`). -/
def dictGet {α : Type} : List (String × α) → String → Option α
  | [], _ => none
  | p :: rest, k => if p.1 = k then some p.2 else dictGet rest k

/-- Python dict assignment `d[k] = v`: overwrite in place if the key is
present, otherwise append at the end. -/
def dictInsert {α : Type} : List (String × α) → String → α → List (String × α)
  | [], k, v => [(k, v)]
  | p :: rest, k, v => if p.1 = k then (k, v) :: rest else p :: dictInsert rest k v

/-- `writer.py` lines 54-68: `if arg not in d: d[arg] = []` followed by
`d[arg].append(v)`. -/
def bucketAppend : List (String × List String) → String → String → List (String × List String)
  | [], k, v => [(k, [v])]
  | p :: rest, k, v =>
      if p.1 = k then (p.1, p.2 ++ [v]) :: rest else p :: bucketAppend rest k v

/-- Append every pair of `l` into the fragment bucket `d`, in order. -/
def appendAll (d : List (String × List String)) (l : List (String × String)) :
    List (String × List String) :=
  l.foldl (fun d p => bucketAppend d p.1 p.2) d

/-- Python `{**a, **b}`: start from `a` and assign every pair of `b` in
order. -/
def dictUnion {α : Type} (a b : List (String × α)) : List (String × α) :=
  b.foldl (fun d p => dictInsert d p.1 p.2) a

/-- One entry of an object's `templates` list: the target file name and
the three optional argument buckets (a bucket is `some` exactly when the
corresponding key is present in the Python dict literal). -/
structure ObjectTemplate where
  filename : String
  mainArgs : Option (List (String × Val))
  appendableArgs : Option (List (String × String))
  commaAppendableArgs : Option (List (String × String))
deriving DecidableEq

/-- A domain object as the writer sees it: anything exposing an ordered
list of template contributions. -/
structure DomainObject where
  templates : List ObjectTemplate
deriving DecidableEq

/-- Transient merge buckets of `WriteSimulationFiles` for one target
file (`writer.py` lines 37-39). -/
structure MergeState where
  mainArgs : List (String × Val)
  appArgs : List (String × List String)
  commaArgs : List (String × List String)
deriving DecidableEq

/-- `writer.py` lines 44-68: fold one contribution into the merge
buckets, skipping contributions aimed at another file. -/
def processTemplate (filename : String) (st : MergeState) (t : ObjectTemplate) :
    MergeState :=
  if t.filename = filename then
    { mainArgs := match t.mainArgs with
        | some m => m
        | none => st.mainArgs
      appArgs := match t.appendableArgs with
        | some l => appendAll st.appArgs l
        | none => st.appArgs
      commaArgs := match t.commaAppendableArgs with
        | some l => appendAll st.commaArgs l
        | none => st.commaArgs }
  else st

/-- `writer.py` lines 42-68: the nested loop over objects and their
contributions. -/
def processObjs (filename : String) (objs : List DomainObject) (st : MergeState) :
    MergeState :=
  objs.foldl (fun st o => o.templates.foldl (processTemplate filename) st) st

/-- The merge buckets accumulated for one target file. -/
def mergeFile (objs : List DomainObject) (filename : String) : MergeState :=
  processObjs filename objs ⟨[], [], []⟩

/-- `writer.py` lines 70-72: join each appendable fragment list with a
newline. -/
def joinApp (d : List (String × List String)) : List (String × Val) :=
  d.map (fun p => (p.1, Val.vstr (String.intercalate "\n" p.2)))

/-- `writer.py` lines 74-77: join each comma-appendable fragment list
with a comma-newline, but only when the fragment list is nonempty (an
empty list would stay a list). -/
def joinComma (d : List (String × List String)) : List (String × Val) :=
  d.map (fun p =>
    (p.1, if p.2.length > 0 then Val.vstr (String.intercalate ",\n" p.2)
          else Val.vlist p.2))

/-- `writer.py` lines 79-81: the final render context
`{**templateMainArgs, **templateAppendableArgs, **templateCommaAppendableArgs}`. -/
def templateArgs (objs : List DomainObject) (filename : String) :
    List (String × Val) :=
  let st := mergeFile objs filename
  dictUnion (dictUnion st.mainArgs (joinApp st.appArgs)) (joinComma st.commaArgs)

/-- `writer.py` line 14. -/
def path_include : String := "./include/picongpu/param/"

/-- `writer.py` line 15. -/
def path_etc : String := "./etc/picongpu/"

/-- Python `str.split` with a one-character separator: cut at every
occurrence, keeping empty pieces (`cur` is the piece being read,
reversed). -/
def pySplitAux (sep : Char) : List Char → List Char → List (List Char)
  | [], cur => [cur.reverse]
  | c :: rest, cur =>
      if c = sep then cur.reverse :: pySplitAux sep rest []
      else pySplitAux sep rest (c :: cur)

/-- Python `s.split(sep)` for a one-character separator. -/
def pySplitChar (sep : Char) (s : String) : List String :=
  (pySplitAux sep s.data []).map String.mk

/-- Python `str.replace`: replace the leftmost non-overlapping
occurrences of `pat`.  The first argument is fuel, instantiated with
the length of the subject so the recursion is structural. -/
def pyReplaceFuel : Nat → List Char → List Char → List Char → List Char
  | 0, _, _, l => l
  | Nat.succ n, pat, repl, l =>
      match l with
      | [] => []
      | c :: rest =>
          if pat ≠ [] ∧ pat.isPrefixOf (c :: rest) then
            repl ++ pyReplaceFuel n pat repl (rest.drop (pat.length - 1))
          else c :: pyReplaceFuel n pat repl rest

/-- Python `s.replace(pat, repl)` (for the nonempty patterns the code
uses). -/
def pyReplace (s pat repl : String) : String :=
  ⟨pyReplaceFuel s.data.length pat.data repl.data s.data⟩

/-- `writer.py` lines 83-90: destination path of a target file.  The
first dot-separated segment `run` routes to the run-configuration area
with `template` replaced by `cfg`; everything else goes to the
parameter area with `template` replaced by `param`. -/
def destPath (filename : String) : String :=
  if (pySplitChar '.' filename).headD "" = "run" then
    path_etc ++ pyReplace filename "template" "cfg"
  else
    path_include ++ pyReplace filename "template" "param"

/-- The on disk state: written files as `path, contents` pairs. -/
structure FS where
  files : List (String × String)
deriving DecidableEq

/-- One step of the discovery loop (`writer.py` lines 28-29): append a
file name unless it is already listed. -/
def fstep (acc : List String) (x : String) : List String :=
  if x ∈ acc then acc else acc ++ [x]

/-- `writer.py` lines 24-29: the ordered list of distinct target files
referenced by the objects (append when not yet listed). -/
def filesList (objs : List DomainObject) : List String :=
  objs.foldl
    (fun acc o => o.templates.foldl (fun acc t => fstep acc t.filename) acc)
    []

/-- `writer.py` lines 32-90, body of the per-file loop: load the
template (line 34, failing like Mako when the file name has no template
text), merge, render and write.  The error value is the offending file
name. -/
def writeOne (render : String → List (String × Val) → String)
    (templates : List (String × String)) (objs : List DomainObject)
    (fs : FS) (filename : String) : Except String FS :=
  match dictGet templates filename with
  | none => .error filename
  | some tm =>
      .ok ⟨dictInsert fs.files (destPath filename)
            (render tm (templateArgs objs filename))⟩

/-- The per-file loop of `writer.py` (line 32): process the listed
files in order, aborting the whole pass at the first file whose
template cannot be loaded; files already written stay written. -/
def runPass (render : String → List (String × Val) → String)
    (templates : List (String × String)) (objs : List DomainObject) :
    List String → FS → Except (FS × String) FS
  | [], fs => .ok fs
  | f :: rest, fs =>
      match writeOne render templates objs fs f with
      | .error e => .error (fs, e)
      | .ok fs2 => runPass render templates objs rest fs2

/-- The successful action of one loop iteration (total version, used to
describe `runPass` results). -/
def writeStep (render : String → List (String × Val) → String)
    (templates : List (String × String)) (objs : List DomainObject)
    (fs : FS) (filename : String) : FS :=
  match writeOne render templates objs fs filename with
  | .ok fs2 => fs2
  | .error _ => fs

/-- `WriteSimulationFiles` from `writer.py`, parameterized by the
template store and the opaque rendering engine. -/
def WriteSimulationFiles (render : String → List (String × Val) → String)
    (templates : List (String × String)) (objs : List DomainObject)
    (fs : FS) : Except (FS × String) FS :=
  runPass render templates objs (filesList objs) fs

/- ----------------------------------------------------------------
Specification-side descriptions of the merge, written from the spec's
wording, to be compared with the code embedding above.
---------------------------------------------------------------- -/

/-- All target file names referenced by any contribution, in object
order, with repetitions. -/
def allTargetFiles : List DomainObject → List String
  | [] => []
  | o :: os => o.templates.map ObjectTemplate.filename ++ allTargetFiles os

/-- Keep the first occurrence of every element, preserving first-seen
order (the spec's "ordered set of distinct targetFile values"). -/
def firstSeen (l : List String) : List String :=
  l.foldl fstep []

/-- The fragments one assoc list supplies for key `K`, in order. -/
def fragsOf (K : String) : List (String × String) → List String
  | [] => []
  | p :: rest => if p.1 = K then p.2 :: fragsOf K rest else fragsOf K rest

/-- The appendable fragments a single contribution supplies for key `K`
of file `f`. -/
def tmplAppFrags (f K : String) (t : ObjectTemplate) : List String :=
  if t.filename = f then
    match t.appendableArgs with
    | some l => fragsOf K l
    | none => []
  else []

/-- The comma-appendable fragments a single contribution supplies for
key `K` of file `f`. -/
def tmplCommaFrags (f K : String) (t : ObjectTemplate) : List String :=
  if t.filename = f then
    match t.commaAppendableArgs with
    | some l => fragsOf K l
    | none => []
  else []

/-- Appendable fragments for key `K` of file `f` over a template list. -/
def appFragsTL (f K : String) : List ObjectTemplate → List String
  | [] => []
  | t :: ts => tmplAppFrags f K t ++ appFragsTL f K ts

/-- Appendable fragments for key `K` of file `f`, over all objects in
contributor order (spec: "fragments f1..fn in object order"). -/
def appFragments (f K : String) : List DomainObject → List String
  | [] => []
  | o :: os => appFragsTL f K o.templates ++ appFragments f K os

/-- Comma-appendable fragments for key `K` of file `f` over a template
list. -/
def commaFragsTL (f K : String) : List ObjectTemplate → List String
  | [] => []
  | t :: ts => tmplCommaFrags f K t ++ commaFragsTL f K ts

/-- Comma-appendable fragments for key `K` of file `f`, over all
objects in contributor order. -/
def commaFragments (f K : String) : List DomainObject → List String
  | [] => []
  | o :: os => commaFragsTL f K o.templates ++ commaFragments f K os

/-- The `mainArgs` dictionaries contributed to file `f` by one
template list, in order. -/
def mainsTL (f : String) : List ObjectTemplate → List (List (String × Val))
  | [] => []
  | t :: ts =>
      (if t.filename = f then
        match t.mainArgs with
        | some m => [m]
        | none => []
      else []) ++ mainsTL f ts

/-- The `mainArgs` dictionaries contributed to file `f`, in object
order. -/
def mainsList (f : String) : List DomainObject → List (List (String × Val))
  | [] => []
  | o :: os => mainsTL f o.templates ++ mainsList f os

/-- Last element of a list, with a default for the empty list. -/
def lastD {α : Type} : List α → α → α
  | [], d => d
  | x :: xs, _ => lastD xs x

/-- Combine an optional accumulated fragment list with newly collected
fragments: no new fragments leave the bucket untouched, otherwise the
new fragments are appended to the (possibly absent) old ones. -/
def extFrags (o : Option (List String)) (fr : List String) : Option (List String) :=
  if fr = [] then o else some (o.getD [] ++ fr)

/-- Keys of an association list. -/
def keysOf {α : Type} (d : List (String × α)) : List String :=
  d.map Prod.fst

/-- Left-biased choice on options (Python: the later `**` dict of a
literal union wins, so its lookup is consulted first). -/
def optOr {α : Type} (x y : Option α) : Option α :=
  match x with
  | some v => some v
  | none => y

/- ----------------------------------------------------------------
Embedding of `src/pogit/particle.py` (`Particle.__init__`).
---------------------------------------------------------------- -/

/-- The `initial_positions` argument of `Particle.__init__`: a tagged
pair whose first element selects the method; any other tag falls
through both branches of the code without effect. -/
inductive InitPos where
  | ordered (nx ny nz : Int)
  | random (n : Int)
  | other (tag : String)
deriving DecidableEq

/-- Modelled from the spec: the codelet snippet texts (module
`pogit.codelets`, imported by `particle.py` but not present under
`src/`) and the Mako engine are external collaborators; spec section 1
treats rendering as the opaque function
`Render(templateText, context) -> string`.  `render` takes the codelet
identifier and the parameter dictionary.  `ionMassFmt e` stands for the
formatted `element(e).mass * atomic_mass / m_e` and `ionAtomicNum e`
for `element(e).atomic_number` (periodic-table lookup, external). -/
structure Collaborators where
  render : String → List (String × Val) → String
  ionMassFmt : String → String
  ionAtomicNum : String → Int

/-- Arguments of `Particle.__init__` in source order.  Python floats
(`relative_density`, `mass_ratio`, `charge_ratio`, `base_density`,
`initial_temperature`) are taken already formatted as the strings the
conversion loop (lines 170-176) would produce; `target_species` is
represented by the name of the target species (`target_species.name` is
its only use, line 158), or `none` for Python `None`. -/
structure ParticleArgs where
  name : String
  species : String
  initial_positions : Option InitPos
  typicalNppc : Option Int
  density_profile : Option String
  base_density : Option String
  relative_density : String
  element : Option String
  initial_charge : Int
  mass_ratio : String
  charge_ratio : String
  target_species : Option String
  ionizer_polarization : String
  initial_temperature : Option String
  shape_order : Int
  pusher : String
  current_deposition : String
deriving DecidableEq

/-- `particle.py` lines 170-176: floats and ints are formatted to
strings (floats are already strings in this model). -/
def pyFormat : Val → Val
  | .vint n => .vstr (toString n)
  | v => v

/-- The Python exceptions `Particle.__init__` can raise, by exception
type: `KeyError` (failed dict lookup), `ValueError` (the explicit
`raise` at line 155, with its message), `AttributeError`
(`target_species.name` on `None`, line 158). -/
inductive PyErr where
  | keyErr (k : String)
  | valueErr (msg : String)
  | attrErr
deriving DecidableEq

/-- `particle.py` lines 128-131: the `ParticleShape` dict lookup,
raising `KeyError` outside `{1, 2, 3, 4}`. -/
def particleShape : Int → Except PyErr String
  | 1 => .ok "CIC"
  | 2 => .ok "TSC"
  | 3 => .ok "PCS"
  | 4 => .ok "P4S"
  | n => .error (.keyErr (toString n))

/-- `particle.py` lines 125-176: build the `params` dictionary,
failing exactly where the Python constructor raises: the
`ParticleShape` lookup (line 128), the missing-`element` check
(lines 153-155), and `target_species.name` on `None` (line 158). -/
def buildParams (cb : Collaborators) (a : ParticleArgs) :
    Except PyErr (List (String × Val)) :=
  let ps : List (String × Val) := []
  let ps := dictInsert ps "name" (.vstr a.name)
  let ps := dictInsert ps "type" (.vstr a.species)
  match particleShape a.shape_order with
  | .error e => .error e
  | .ok shape =>
    let ps := dictInsert ps "ParticleShape" (.vstr shape)
    let ps := dictInsert ps "CurrentSolver" (.vstr a.current_deposition)
    let ps := dictInsert ps "ParticlePusher" (.vstr a.pusher)
    let ps := dictInsert ps "Temperature"
      (match a.initial_temperature with
        | some t => .vstr t
        | none => .vnone)
    let ps := match a.initial_positions with
      | some (.ordered nx ny nz) =>
          dictInsert (dictInsert (dictInsert ps "NppcX" (.vint nx))
            "NppcY" (.vint ny)) "NppcZ" (.vint nz)
      | some (.random n) => dictInsert ps "Nppc" (.vint n)
      | some (.other _) => ps
      | none => ps
    let ps := match a.typicalNppc with
      | some n => dictInsert ps "TYPICAL_PARTICLES_PER_CELL" (.vint n)
      | none => ps
    let ps := match a.base_density with
      | some d => dictInsert ps "BASE_DENSITY" (.vstr d)
      | none => ps
    let ps := dictInsert ps "DensityRatio" (.vstr a.relative_density)
    let afterIon : Except PyErr (List (String × Val)) :=
      if a.species = "generic_ionizable" ∨ a.species = "ion" then
        match a.element with
        | none => .error (.valueErr (a.species ++ " needs `element` argument"))
        | some el =>
            match a.target_species with
            | none => .error .attrErr
            | some ts =>
                .ok (dictInsert (dictInsert (dictInsert (dictInsert ps
                  "Element" (.vstr el))
                  "TargetSpeciesName" (.vstr ts))
                  "InitialCharge" (.vint a.initial_charge))
                  "pol" (.vstr a.ionizer_polarization))
      else .ok ps
    match afterIon with
    | .error e => .error e
    | .ok ps =>
      let ps :=
        if a.species = "generic_ionizable" ∨ a.species = "generic_nonionizable" then
          dictInsert (dictInsert ps "MassRatio" (.vstr a.mass_ratio))
            "ChargeRatio" (.vstr a.charge_ratio)
        else if a.species = "ion" then
          dictInsert (dictInsert ps
            "MassRatio" (.vstr (cb.ionMassFmt (a.element.getD ""))))
            "ChargeRatio" (.vint (-(cb.ionAtomicNum (a.element.getD ""))))
        else ps
      .ok (ps.map (fun p => (p.1, pyFormat p.2)))

/-- Tag of an `initial_positions` value, as used to select the
`StartPosition` codelet (`particle.py` line 206). -/
def InitPos.tag : InitPos → String
  | .ordered _ _ _ => "Ordered"
  | .random _ => "Random"
  | .other t => t

/-- `particle.py` lines 179-183: the `species.template` contribution. -/
def speciesTemplate (cb : Collaborators) (a : ParticleArgs)
    (ps : List (String × Val)) : ObjectTemplate :=
  ⟨"species.template", none,
    some [("speciesNumericalParam", cb.render "speciesNumericalParam" ps)],
    none⟩

/-- `particle.py` lines 208-216: the `manipulator_list`. -/
def manipulator_list (cb : Collaborators) (a : ParticleArgs)
    (ps : List (String × Val)) : List String :=
  (if a.species = "generic_ionizable" ∨ a.species = "ion" then
    [cb.render "Manipulators.SetIonCharge" ps]
  else []) ++
  (match a.initial_temperature with
    | some _ => [cb.render "Manipulators.Temperature" ps]
    | none => [])

/-- `particle.py` lines 196-219: the `particle.template` contribution
(`MainArgs` present exactly when `typicalNppc` was given; the
`Manipulators` key is always assigned). -/
def particleTemplate (cb : Collaborators) (a : ParticleArgs)
    (ps : List (String × Val)) : ObjectTemplate :=
  let app : List (String × String) :=
    match a.initial_positions with
    | some ip => [("StartPosition", cb.render ("StartPosition." ++ ip.tag) ps)]
    | none => []
  let app :=
    dictInsert app "Manipulators"
      (String.intercalate "\n" (manipulator_list cb a ps))
  ⟨"particle.template",
    (if a.typicalNppc.isSome then some ps else none),
    some app,
    none⟩

/-- `particle.py` lines 185-194: the `speciesDefinition.template`
contribution. -/
def speciesDefinitionTemplate (cb : Collaborators) (a : ParticleArgs)
    (ps : List (String × Val)) : ObjectTemplate :=
  ⟨"speciesDefinition.template", none,
    some [("SpeciesDefinition", cb.render ("speciesDefinition." ++ a.species) ps)],
    some [("SpeciesRuntimeName", "PIC_" ++ a.name)]⟩

/-- `particle.py` lines 228-233: the `createManipulate_list`. -/
def createManipulate_list (cb : Collaborators) (a : ParticleArgs)
    (ps : List (String × Val)) : List String :=
  (match a.density_profile with
    | some _ => [cb.render "CreateDensity" ps]
    | none => []) ++
  (if a.species = "generic_ionizable" ∨ a.species = "ion" then
    [cb.render "SetIonCharge" ps]
  else [])

/-- `particle.py` lines 221-237: the `speciesInitialization.template`
contribution: the `CreateManipulate` key is set only when the list is
nonempty. -/
def speciesInitTemplate (cb : Collaborators) (a : ParticleArgs)
    (ps : List (String × Val)) : ObjectTemplate :=
  ⟨"speciesInitialization.template", none, none,
    some (if (createManipulate_list cb a ps).length ≠ 0 then
      [("CreateManipulate",
        String.intercalate ",\n" (createManipulate_list cb a ps))]
    else [])⟩

/-- `particle.py` lines 239-250: the `density.template` contribution. -/
def densityTemplate (cb : Collaborators) (a : ParticleArgs)
    (ps : List (String × Val)) : ObjectTemplate :=
  ⟨"density.template",
    (if a.base_density.isSome then some ps else none),
    some (match a.density_profile with
      | some dp => [("densityProfile", cb.render ("densityProfile." ++ dp) ps)]
      | none => []),
    none⟩

/-- `particle.py` lines 252-258: the final list of contributions, in
source order. -/
def mkTemplates (cb : Collaborators) (a : ParticleArgs)
    (ps : List (String × Val)) : List ObjectTemplate :=
  [speciesTemplate cb a ps, particleTemplate cb a ps,
   speciesDefinitionTemplate cb a ps, speciesInitTemplate cb a ps,
   densityTemplate cb a ps]

/-- A constructed particle: its name and its template contributions. -/
structure Particle where
  name : String
  templates : List ObjectTemplate
deriving DecidableEq

/-- `Particle.__init__`: build the parameter dictionary (raising where
the Python constructor raises) and then the contribution list. -/
def mkParticle (cb : Collaborators) (a : ParticleArgs) : Except PyErr Particle :=
  match buildParams cb a with
  | .error e => .error e
  | .ok ps => .ok ⟨a.name, mkTemplates cb a ps⟩

/-- View a particle as a domain object for the writer. -/
def Particle.obj (p : Particle) : DomainObject := ⟨p.templates⟩

/-- Lookup of an appendable-args key inside one contribution. -/
def appLookup (t : ObjectTemplate) (k : String) : Option String :=
  match t.appendableArgs with
  | some l => dictGet l k
  | none => none

/-- Lookup of a comma-appendable-args key inside one contribution. -/
def commaLookup (t : ObjectTemplate) (k : String) : Option String :=
  match t.commaAppendableArgs with
  | some l => dictGet l k
  | none => none

/- ----------------------------------------------------------------
Concrete inputs used by witnesses and counterexamples.
---------------------------------------------------------------- -/

/-- A rendering stub that returns the template text unchanged. -/
def rend0 : String → List (String × Val) → String := fun tm _ => tm

/-- An object contributing a single empty comma-appendable fragment. -/
def oEmptyComma : DomainObject := ⟨[⟨"f.template", none, none, some [("K", "")]⟩]⟩

/-- An object whose contribution carries the same key in both the
appendable and the comma-appendable bucket. -/
def oClash : DomainObject :=
  ⟨[⟨"f.template", none, some [("K", "a")], some [("K", "b")]⟩]⟩

/-- Two objects each contributing one appendable fragment under the
same key. -/
def oAppX : DomainObject := ⟨[⟨"f.template", none, some [("K", "x")], none⟩]⟩

/-- Second appendable contributor. -/
def oAppY : DomainObject := ⟨[⟨"f.template", none, some [("K", "y")], none⟩]⟩

/-- First of two main-args contributors (the spec's example C1 with
`mainArgs = {a: 1}`). -/
def oMainOne : DomainObject :=
  ⟨[⟨"g.template", some [("a", Val.vstr "1")], none, none⟩]⟩

/-- Second main-args contributor (`mainArgs = {a: 2}`). -/
def oMainTwo : DomainObject :=
  ⟨[⟨"g.template", some [("a", Val.vstr "2")], none, none⟩]⟩

/-- Two objects referencing the files a, b and again a. -/
def oFilesAB : DomainObject :=
  ⟨[⟨"a.template", none, none, none⟩, ⟨"b.template", none, none, none⟩]⟩

/-- Object referencing file a only. -/
def oFilesA : DomainObject := ⟨[⟨"a.template", none, none, none⟩]⟩

/-- A template store holding text for the files a and b. -/
def storeAB : List (String × String) :=
  [("a.template", "TA"), ("b.template", "TB")]

/-- A template store holding text for file a only. -/
def storeA : List (String × String) := [("a.template", "TA")]

/-- A template store for the routing examples of the spec. -/
def storeRouting : List (String × String) :=
  [("run.something.template", "RT"), ("species.template", "ST")]

/-- Opaque collaborators used in witnesses: rendering returns the
codelet identifier. -/
def cb0 : Collaborators := ⟨fun c _ => c, fun _ => "1.0", fun _ => 1⟩

/-- A plain electron particle (no temperature, no profile). -/
def aElectron : ParticleArgs :=
  ⟨"ele", "electron", none, none, none, none, "1.0", none, 0, "1.0", "-1.0",
    none, "Circ", none, 1, "Boris", "Esirkepov"⟩

/-- An electron species with an initial temperature. -/
def aElectronT : ParticleArgs :=
  ⟨"hot", "electron", none, none, none, none, "1.0", none, 0, "1.0", "-1.0",
    none, "Circ", some "5.000000000000000e+00", 1, "Boris", "Esirkepov"⟩

/-- An ion species lacking the `element` argument. -/
def aIonNoEl : ParticleArgs :=
  ⟨"N1", "ion", none, none, none, none, "1.0", none, 0, "1.0", "-1.0",
    some "ele", "Circ", none, 1, "Boris", "Esirkepov"⟩

/-- An ion species with the `element` argument supplied. -/
def aIonOk : ParticleArgs :=
  ⟨"N1", "ion", none, none, some "Gaussian", none, "1.0", some "N", 0,
    "1.0", "-1.0", some "ele", "Circ", none, 1, "Boris", "Esirkepov"⟩

/-- Extract the value of a successful computation, with a default. -/
def getOk {α : Type} (d : α) : Except PyErr α → α
  | .ok x => x
  | .error _ => d

/-- The electron particle, constructed. -/
def pElectron : Particle := getOk ⟨"", []⟩ (mkParticle cb0 aElectron)

/-- The heated electron particle, constructed. -/
def pElectronT : Particle := getOk ⟨"", []⟩ (mkParticle cb0 aElectronT)

/-- The ion particle, constructed. -/
def pIonOk : Particle := getOk ⟨"", []⟩ (mkParticle cb0 aIonOk)

/- ----------------------------------------------------------------
Dictionary lemmas.
---------------------------------------------------------------- -/

theorem dictGet_dictInsert {α : Type} (d : List (String × α)) (k k' : String) (v : α) :
    dictGet (dictInsert d k v) k' = if k' = k then some v else dictGet d k' := by
  induction d with
  | nil =>
      by_cases h : k' = k
      · subst h; simp [dictInsert, dictGet]
      · have h' : ¬ k = k' := fun h2 => h h2.symm
        simp [dictInsert, dictGet, h, h']
  | cons p rest ih =>
      by_cases hp : p.1 = k
      · by_cases h : k' = k
        · subst h; simp [dictInsert, dictGet, hp]
        · have h' : ¬ k = k' := fun h2 => h h2.symm
          simp [dictInsert, dictGet, hp, h, h']
      · by_cases hq : p.1 = k'
        · have h : ¬ k' = k := fun h2 => hp (hq.trans h2)
          simp [dictInsert, dictGet, hp, hq, h]
        · simp [dictInsert, dictGet, hp, hq, ih]

theorem dictGet_bucketAppend (d : List (String × List String)) (k k' v : String) :
    dictGet (bucketAppend d k v) k'
      = if k' = k then some ((dictGet d k).getD [] ++ [v]) else dictGet d k' := by
  induction d with
  | nil =>
      by_cases h : k' = k
      · subst h; simp [bucketAppend, dictGet]
      · have h' : ¬ k = k' := fun h2 => h h2.symm
        simp [bucketAppend, dictGet, h, h']
  | cons p rest ih =>
      by_cases hp : p.1 = k
      · by_cases h : k' = k
        · subst h; simp [bucketAppend, dictGet, hp]
        · have h' : ¬ k = k' := fun h2 => h h2.symm
          simp [bucketAppend, dictGet, hp, h, h']
      · by_cases hq : p.1 = k'
        · have h : ¬ k' = k := fun h2 => hp (hq.trans h2)
          simp [bucketAppend, dictGet, hp, hq, h]
        · simp [bucketAppend, dictGet, hp, hq, ih]

@[simp] theorem extFrags_nil (o : Option (List String)) : extFrags o [] = o := by
  simp [extFrags]

theorem extFrags_cons (o : Option (List String)) (v : String) (fr : List String) :
    extFrags o (v :: fr) = extFrags (some (o.getD [] ++ [v])) fr := by
  cases fr with
  | nil => simp [extFrags]
  | cons w ws => simp [extFrags, List.append_assoc]

theorem extFrags_append (o : Option (List String)) (f1 f2 : List String) :
    extFrags o (f1 ++ f2) = extFrags (extFrags o f1) f2 := by
  induction f1 generalizing o with
  | nil => simp
  | cons v vs ih => simp only [List.cons_append, extFrags_cons, ih]

theorem dictGet_appendAll (d : List (String × List String))
    (l : List (String × String)) (K : String) :
    dictGet (appendAll d l) K = extFrags (dictGet d K) (fragsOf K l) := by
  induction l generalizing d with
  | nil => simp [appendAll, fragsOf]
  | cons p rest ih =>
      have step : appendAll d (p :: rest) = appendAll (bucketAppend d p.1 p.2) rest := rfl
      rw [step, ih, dictGet_bucketAppend]
      by_cases h : K = p.1
      · subst h
        simp [fragsOf, extFrags_cons]
      · have h' : ¬ p.1 = K := fun h2 => h h2.symm
        simp [fragsOf, h, h']

@[simp] theorem keysOf_nil {α : Type} : keysOf ([] : List (String × α)) = [] := rfl

@[simp] theorem keysOf_cons {α : Type} (p : String × α) (d : List (String × α)) :
    keysOf (p :: d) = p.1 :: keysOf d := rfl

theorem dictGet_eq_none_iff {α : Type} (d : List (String × α)) (k : String) :
    dictGet d k = none ↔ k ∉ keysOf d := by
  induction d with
  | nil => simp [dictGet]
  | cons p rest ih =>
      by_cases h : p.1 = k
      · simp [dictGet, h]
      · have h' : ¬ k = p.1 := fun h2 => h h2.symm
        simp [dictGet, h, h', ih]

theorem bucketAppend_cons_pos (p : String × List String)
    (rest : List (String × List String)) (k v : String) (h : p.1 = k) :
    bucketAppend (p :: rest) k v = (p.1, p.2 ++ [v]) :: rest := by
  simp [bucketAppend, h]

theorem bucketAppend_cons_neg (p : String × List String)
    (rest : List (String × List String)) (k v : String) (h : ¬ p.1 = k) :
    bucketAppend (p :: rest) k v = p :: bucketAppend rest k v := by
  simp [bucketAppend, h]

theorem mem_keysOf_bucketAppend (d : List (String × List String)) (k v K : String) :
    K ∈ keysOf (bucketAppend d k v) ↔ K ∈ keysOf d ∨ K = k := by
  induction d with
  | nil => simp [bucketAppend]
  | cons p rest ih =>
      by_cases h : p.1 = k
      · rw [bucketAppend_cons_pos p rest k v h, keysOf_cons, keysOf_cons]
        simp only [List.mem_cons]
        constructor
        · rintro (he | hm)
          · exact Or.inl (Or.inl he)
          · exact Or.inl (Or.inr hm)
        · rintro ((he | hm) | he)
          · exact Or.inl he
          · exact Or.inr hm
          · exact Or.inl (he.trans h.symm)
      · rw [bucketAppend_cons_neg p rest k v h, keysOf_cons, keysOf_cons]
        simp only [List.mem_cons, ih]
        tauto

theorem nodup_keysOf_bucketAppend (d : List (String × List String)) (k v : String)
    (hd : (keysOf d).Nodup) : (keysOf (bucketAppend d k v)).Nodup := by
  induction d with
  | nil => simp [bucketAppend]
  | cons p rest ih =>
      rw [keysOf_cons, List.nodup_cons] at hd
      by_cases h : p.1 = k
      · rw [bucketAppend_cons_pos p rest k v h, keysOf_cons]
        exact List.nodup_cons.mpr hd
      · rw [bucketAppend_cons_neg p rest k v h, keysOf_cons]
        refine List.nodup_cons.mpr ⟨fun hm => ?_, ih hd.2⟩
        rcases (mem_keysOf_bucketAppend rest k v p.1).mp hm with hmem | heq
        · exact hd.1 hmem
        · exact h heq

theorem nodup_keysOf_appendAll (d : List (String × List String))
    (l : List (String × String)) (hd : (keysOf d).Nodup) :
    (keysOf (appendAll d l)).Nodup := by
  induction l generalizing d with
  | nil => exact hd
  | cons p rest ih => exact ih _ (nodup_keysOf_bucketAppend d p.1 p.2 hd)

/- ----------------------------------------------------------------
Characterization of the merge buckets.
---------------------------------------------------------------- -/

theorem appArgs_processTemplate (f : String) (st : MergeState) (t : ObjectTemplate)
    (K : String) :
    dictGet (processTemplate f st t).appArgs K
      = extFrags (dictGet st.appArgs K) (tmplAppFrags f K t) := by
  by_cases hf : t.filename = f
  · cases ha : t.appendableArgs with
    | none => simp [processTemplate, hf, tmplAppFrags, ha]
    | some l => simp [processTemplate, hf, tmplAppFrags, ha, dictGet_appendAll]
  · simp [processTemplate, hf, tmplAppFrags]

theorem commaArgs_processTemplate (f : String) (st : MergeState) (t : ObjectTemplate)
    (K : String) :
    dictGet (processTemplate f st t).commaArgs K
      = extFrags (dictGet st.commaArgs K) (tmplCommaFrags f K t) := by
  by_cases hf : t.filename = f
  · cases ha : t.commaAppendableArgs with
    | none => simp [processTemplate, hf, tmplCommaFrags, ha]
    | some l => simp [processTemplate, hf, tmplCommaFrags, ha, dictGet_appendAll]
  · simp [processTemplate, hf, tmplCommaFrags]

theorem mainArgs_processTemplate (f : String) (st : MergeState) (t : ObjectTemplate) :
    (processTemplate f st t).mainArgs
      = lastD (if t.filename = f then
            (match t.mainArgs with
              | some m => [m]
              | none => [])
          else []) st.mainArgs := by
  by_cases hf : t.filename = f
  · cases hm : t.mainArgs with
    | none => simp [processTemplate, hf, hm, lastD]
    | some m => simp [processTemplate, hf, hm, lastD]
  · simp [processTemplate, hf, lastD]

theorem lastD_append {α : Type} (l1 l2 : List α) (d : α) :
    lastD (l1 ++ l2) d = lastD l2 (lastD l1 d) := by
  induction l1 generalizing d with
  | nil => rfl
  | cons x xs ih => simp [lastD, ih]

theorem appArgs_foldTL (f K : String) (ts : List ObjectTemplate) (st : MergeState) :
    dictGet ((ts.foldl (processTemplate f) st).appArgs) K
      = extFrags (dictGet st.appArgs K) (appFragsTL f K ts) := by
  induction ts generalizing st with
  | nil => simp [appFragsTL]
  | cons t ts ih =>
      simp only [List.foldl_cons, appFragsTL, extFrags_append]
      rw [ih, appArgs_processTemplate]

theorem commaArgs_foldTL (f K : String) (ts : List ObjectTemplate) (st : MergeState) :
    dictGet ((ts.foldl (processTemplate f) st).commaArgs) K
      = extFrags (dictGet st.commaArgs K) (commaFragsTL f K ts) := by
  induction ts generalizing st with
  | nil => simp [commaFragsTL]
  | cons t ts ih =>
      simp only [List.foldl_cons, commaFragsTL, extFrags_append]
      rw [ih, commaArgs_processTemplate]

theorem mainArgs_foldTL (f : String) (ts : List ObjectTemplate) (st : MergeState) :
    ((ts.foldl (processTemplate f) st).mainArgs)
      = lastD (mainsTL f ts) st.mainArgs := by
  induction ts generalizing st with
  | nil => rfl
  | cons t ts ih =>
      simp only [List.foldl_cons, mainsTL, lastD_append]
      rw [ih, mainArgs_processTemplate]

theorem appArgs_processObjs (f K : String) (objs : List DomainObject)
    (st : MergeState) :
    dictGet ((processObjs f objs st).appArgs) K
      = extFrags (dictGet st.appArgs K) (appFragments f K objs) := by
  induction objs generalizing st with
  | nil => simp [processObjs, appFragments]
  | cons o os ih =>
      have h1 : processObjs f (o :: os) st
          = processObjs f os (o.templates.foldl (processTemplate f) st) := rfl
      rw [h1, ih]
      simp only [appFragments, extFrags_append]
      rw [appArgs_foldTL]

theorem commaArgs_processObjs (f K : String) (objs : List DomainObject)
    (st : MergeState) :
    dictGet ((processObjs f objs st).commaArgs) K
      = extFrags (dictGet st.commaArgs K) (commaFragments f K objs) := by
  induction objs generalizing st with
  | nil => simp [processObjs, commaFragments]
  | cons o os ih =>
      have h1 : processObjs f (o :: os) st
          = processObjs f os (o.templates.foldl (processTemplate f) st) := rfl
      rw [h1, ih]
      simp only [commaFragments, extFrags_append]
      rw [commaArgs_foldTL]

theorem mainArgs_processObjs (f : String) (objs : List DomainObject)
    (st : MergeState) :
    ((processObjs f objs st).mainArgs)
      = lastD (mainsList f objs) st.mainArgs := by
  induction objs generalizing st with
  | nil => rfl
  | cons o os ih =>
      have h1 : processObjs f (o :: os) st
          = processObjs f os (o.templates.foldl (processTemplate f) st) := rfl
      rw [h1, ih]
      simp only [mainsList, lastD_append]
      rw [mainArgs_foldTL]

theorem appBucket_mergeFile (objs : List DomainObject) (f K : String) :
    dictGet (mergeFile objs f).appArgs K = extFrags none (appFragments f K objs) := by
  rw [mergeFile, appArgs_processObjs]; rfl

theorem commaBucket_mergeFile (objs : List DomainObject) (f K : String) :
    dictGet (mergeFile objs f).commaArgs K
      = extFrags none (commaFragments f K objs) := by
  rw [mergeFile, commaArgs_processObjs]; rfl

theorem mainBucket_mergeFile (objs : List DomainObject) (f : String) :
    (mergeFile objs f).mainArgs = lastD (mainsList f objs) [] := by
  rw [mergeFile, mainArgs_processObjs]

/- ----------------------------------------------------------------
Joining, key invariants and the final union.
---------------------------------------------------------------- -/

theorem joinApp_cons (p : String × List String) (d : List (String × List String)) :
    joinApp (p :: d) = (p.1, Val.vstr (String.intercalate "\n" p.2)) :: joinApp d := rfl

theorem joinComma_cons (p : String × List String) (d : List (String × List String)) :
    joinComma (p :: d)
      = (p.1, if p.2.length > 0 then Val.vstr (String.intercalate ",\n" p.2)
              else Val.vlist p.2) :: joinComma d := rfl

theorem dictGet_joinApp (d : List (String × List String)) (K : String) :
    dictGet (joinApp d) K
      = (dictGet d K).map (fun l => Val.vstr (String.intercalate "\n" l)) := by
  induction d with
  | nil => rfl
  | cons p rest ih =>
      rw [joinApp_cons]
      by_cases h : p.1 = K
      · simp [dictGet, h]
      · simp [dictGet, h, ih]

theorem dictGet_joinComma (d : List (String × List String)) (K : String) :
    dictGet (joinComma d) K
      = (dictGet d K).map (fun l =>
          if l.length > 0 then Val.vstr (String.intercalate ",\n" l)
          else Val.vlist l) := by
  induction d with
  | nil => rfl
  | cons p rest ih =>
      rw [joinComma_cons]
      by_cases h : p.1 = K
      · simp [dictGet, h]
      · simp [dictGet, h, ih]

theorem keysOf_joinApp (d : List (String × List String)) :
    keysOf (joinApp d) = keysOf d := by
  induction d with
  | nil => rfl
  | cons p rest ih => rw [joinApp_cons, keysOf_cons, keysOf_cons, ih]

theorem keysOf_joinComma (d : List (String × List String)) :
    keysOf (joinComma d) = keysOf d := by
  induction d with
  | nil => rfl
  | cons p rest ih => rw [joinComma_cons, keysOf_cons, keysOf_cons, ih]

theorem nodup_appArgs_processTemplate (f : String) (st : MergeState)
    (t : ObjectTemplate) (hd : (keysOf st.appArgs).Nodup) :
    (keysOf (processTemplate f st t).appArgs).Nodup := by
  by_cases hf : t.filename = f
  · cases ha : t.appendableArgs with
    | none => simpa [processTemplate, hf, ha] using hd
    | some l =>
        simp only [processTemplate, if_pos hf, ha]
        exact nodup_keysOf_appendAll _ l hd
  · simpa [processTemplate, hf] using hd

theorem nodup_commaArgs_processTemplate (f : String) (st : MergeState)
    (t : ObjectTemplate) (hd : (keysOf st.commaArgs).Nodup) :
    (keysOf (processTemplate f st t).commaArgs).Nodup := by
  by_cases hf : t.filename = f
  · cases ha : t.commaAppendableArgs with
    | none => simpa [processTemplate, hf, ha] using hd
    | some l =>
        simp only [processTemplate, if_pos hf, ha]
        exact nodup_keysOf_appendAll _ l hd
  · simpa [processTemplate, hf] using hd

theorem nodup_appArgs_foldTL (f : String) (ts : List ObjectTemplate)
    (st : MergeState) (hd : (keysOf st.appArgs).Nodup) :
    (keysOf ((ts.foldl (processTemplate f) st).appArgs)).Nodup := by
  induction ts generalizing st with
  | nil => exact hd
  | cons t ts ih => exact ih _ (nodup_appArgs_processTemplate f st t hd)

theorem nodup_commaArgs_foldTL (f : String) (ts : List ObjectTemplate)
    (st : MergeState) (hd : (keysOf st.commaArgs).Nodup) :
    (keysOf ((ts.foldl (processTemplate f) st).commaArgs)).Nodup := by
  induction ts generalizing st with
  | nil => exact hd
  | cons t ts ih => exact ih _ (nodup_commaArgs_processTemplate f st t hd)

theorem nodup_appArgs_mergeFile (objs : List DomainObject) (f : String) :
    (keysOf (mergeFile objs f).appArgs).Nodup := by
  suffices h : ∀ st : MergeState, (keysOf st.appArgs).Nodup →
      (keysOf (processObjs f objs st).appArgs).Nodup by
    exact h ⟨[], [], []⟩ (by simp)
  induction objs with
  | nil => exact fun st hd => hd
  | cons o os ih =>
      intro st hd
      exact ih _ (nodup_appArgs_foldTL f o.templates st hd)

theorem nodup_commaArgs_mergeFile (objs : List DomainObject) (f : String) :
    (keysOf (mergeFile objs f).commaArgs).Nodup := by
  suffices h : ∀ st : MergeState, (keysOf st.commaArgs).Nodup →
      (keysOf (processObjs f objs st).commaArgs).Nodup by
    exact h ⟨[], [], []⟩ (by simp)
  induction objs with
  | nil => exact fun st hd => hd
  | cons o os ih =>
      intro st hd
      exact ih _ (nodup_commaArgs_foldTL f o.templates st hd)

theorem dictGet_dictUnion {α : Type} (a b : List (String × α)) (k : String)
    (hb : (keysOf b).Nodup) :
    dictGet (dictUnion a b) k = optOr (dictGet b k) (dictGet a k) := by
  induction b generalizing a with
  | nil => rfl
  | cons p rest ih =>
      rw [keysOf_cons, List.nodup_cons] at hb
      have step : dictUnion a (p :: rest) = dictUnion (dictInsert a p.1 p.2) rest := rfl
      rw [step, ih _ hb.2]
      by_cases h : k = p.1
      · have hnone : dictGet rest k = none := by
          rw [h]; exact (dictGet_eq_none_iff rest p.1).mpr hb.1
        rw [hnone]
        simp [optOr, dictGet, dictGet_dictInsert, h]
      · have h' : ¬ p.1 = k := fun h2 => h h2.symm
        simp [optOr, dictGet, dictGet_dictInsert, h, h']

theorem dictGet_templateArgs (objs : List DomainObject) (f K : String) :
    dictGet (templateArgs objs f) K
      = optOr (dictGet (joinComma (mergeFile objs f).commaArgs) K)
          (optOr (dictGet (joinApp (mergeFile objs f).appArgs) K)
            (dictGet (mergeFile objs f).mainArgs K)) := by
  have h1 : (keysOf (joinComma (mergeFile objs f).commaArgs)).Nodup := by
    rw [keysOf_joinComma]; exact nodup_commaArgs_mergeFile objs f
  have h2 : (keysOf (joinApp (mergeFile objs f).appArgs)).Nodup := by
    rw [keysOf_joinApp]; exact nodup_appArgs_mergeFile objs f
  simp only [templateArgs]
  rw [dictGet_dictUnion _ _ _ h1, dictGet_dictUnion _ _ _ h2]

/- ----------------------------------------------------------------
Discovery and pass lemmas.
---------------------------------------------------------------- -/

theorem fstep_pos (acc : List String) (x : String) (h : x ∈ acc) :
    fstep acc x = acc := by
  simp [fstep, h]

theorem fstep_neg (acc : List String) (x : String) (h : x ∉ acc) :
    fstep acc x = acc ++ [x] := by
  simp [fstep, h]

theorem foldTL_fstep (ts : List ObjectTemplate) (acc : List String) :
    ts.foldl (fun acc t => fstep acc t.filename) acc
      = (ts.map ObjectTemplate.filename).foldl fstep acc := by
  induction ts generalizing acc with
  | nil => rfl
  | cons t ts ih =>
      simp only [List.foldl_cons, List.map_cons]
      exact ih _

theorem filesList_eq_firstSeen (objs : List DomainObject) :
    filesList objs = firstSeen (allTargetFiles objs) := by
  suffices h : ∀ acc,
      objs.foldl
        (fun acc o => o.templates.foldl (fun acc t => fstep acc t.filename) acc) acc
      = (allTargetFiles objs).foldl fstep acc by
    exact h []
  induction objs with
  | nil => intro acc; rfl
  | cons o os ih =>
      intro acc
      simp only [List.foldl_cons, allTargetFiles, List.foldl_append]
      rw [foldTL_fstep, ih]

theorem mem_foldl_fstep (l : List String) (acc : List String) (y : String) :
    y ∈ l.foldl fstep acc ↔ y ∈ acc ∨ y ∈ l := by
  induction l generalizing acc with
  | nil => simp
  | cons x xs ih =>
      simp only [List.foldl_cons, ih, List.mem_cons]
      by_cases h : x ∈ acc
      · rw [fstep_pos acc x h]
        constructor
        · tauto
        · rintro (hy | hy | hy)
          · exact Or.inl hy
          · exact Or.inl (by rw [hy]; exact h)
          · exact Or.inr hy
      · rw [fstep_neg acc x h]
        simp only [List.mem_append, List.mem_singleton]
        tauto

theorem nodup_foldl_fstep (l : List String) (acc : List String) (h : acc.Nodup) :
    (l.foldl fstep acc).Nodup := by
  induction l generalizing acc with
  | nil => exact h
  | cons x xs ih =>
      by_cases hx : x ∈ acc
      · rw [List.foldl_cons, fstep_pos acc x hx]; exact ih _ h
      · rw [List.foldl_cons, fstep_neg acc x hx]
        refine ih _ ?_
        simp [List.nodup_append, h, hx]

theorem mem_allTargetFiles (objs : List DomainObject) (f : String) :
    f ∈ allTargetFiles objs
      ↔ ∃ o, o ∈ objs ∧ ∃ t, t ∈ o.templates ∧ t.filename = f := by
  induction objs with
  | nil => simp [allTargetFiles]
  | cons o os ih =>
      simp only [allTargetFiles, List.mem_append, List.mem_map, ih, List.mem_cons]
      constructor
      · rintro (⟨t, ht, hf⟩ | ⟨o', ho', t, ht, hf⟩)
        · exact ⟨o, Or.inl rfl, t, ht, hf⟩
        · exact ⟨o', Or.inr ho', t, ht, hf⟩
      · rintro ⟨o', ho' | ho', t, ht, hf⟩
        · exact Or.inl ⟨t, by rw [← ho']; exact ht, hf⟩
        · exact Or.inr ⟨o', ho', t, ht, hf⟩

theorem runPass_cons_ok (render : String → List (String × Val) → String)
    (templates : List (String × String)) (objs : List DomainObject)
    (g : String) (rest : List String) (fs : FS) (tm : String)
    (htm : dictGet templates g = some tm) :
    runPass render templates objs (g :: rest) fs
      = runPass render templates objs rest (writeStep render templates objs fs g) := by
  simp [runPass, writeOne, writeStep, htm]

theorem runPass_cons_err (render : String → List (String × Val) → String)
    (templates : List (String × String)) (objs : List DomainObject)
    (g : String) (rest : List String) (fs : FS)
    (hnone : dictGet templates g = none) :
    runPass render templates objs (g :: rest) fs = .error (fs, g) := by
  simp [runPass, writeOne, hnone]

theorem runPass_ok (render : String → List (String × Val) → String)
    (templates : List (String × String)) (objs : List DomainObject)
    (l : List String) (fs : FS)
    (h : ∀ g ∈ l, (dictGet templates g).isSome = true) :
    runPass render templates objs l fs
      = .ok (l.foldl (writeStep render templates objs) fs) := by
  induction l generalizing fs with
  | nil => rfl
  | cons g rest ih =>
      rcases Option.isSome_iff_exists.mp (h g (List.mem_cons_self g rest))
        with ⟨tm, htm⟩
      rw [runPass_cons_ok render templates objs g rest fs tm htm, List.foldl_cons,
        ih _ (fun g' hg' => h g' (List.mem_cons_of_mem _ hg'))]

theorem runPass_err (render : String → List (String × Val) → String)
    (templates : List (String × String)) (objs : List DomainObject)
    (l : List String) (fs : FS) (g : String) (hg : g ∈ l)
    (hnone : dictGet templates g = none) :
    ∃ m, runPass render templates objs l fs
        = .error ((l.takeWhile (fun x => (dictGet templates x).isSome)).foldl
            (writeStep render templates objs) fs, m)
      ∧ dictGet templates m = none
      ∧ (l.dropWhile (fun x => (dictGet templates x).isSome)).head? = some m := by
  induction l generalizing fs with
  | nil => cases hg
  | cons x rest ih =>
      cases hx : dictGet templates x with
      | none =>
          refine ⟨x, ?_, hx, ?_⟩
          · rw [runPass_cons_err render templates objs x rest fs hx]
            have ht : (x :: rest).takeWhile (fun y => (dictGet templates y).isSome)
                = [] := by
              simp [List.takeWhile_cons, hx]
            rw [ht]
            rfl
          · simp [List.dropWhile_cons, hx]
      | some tm =>
          have hgx : g ∈ rest := by
            rcases List.mem_cons.mp hg with rfl | hr
            · rw [hx] at hnone; cases hnone
            · exact hr
          rcases ih (writeStep render templates objs fs x) hgx with ⟨m, h1, h2, h3⟩
          refine ⟨m, ?_, h2, ?_⟩
          · rw [runPass_cons_ok render templates objs x rest fs tm hx, h1]
            have ht : (x :: rest).takeWhile (fun y => (dictGet templates y).isSome)
                = x :: rest.takeWhile (fun y => (dictGet templates y).isSome) := by
              simp [List.takeWhile_cons, hx]
            rw [ht, List.foldl_cons]
          · have hd : (x :: rest).dropWhile (fun y => (dictGet templates y).isSome)
                = rest.dropWhile (fun y => (dictGet templates y).isSome) := by
              simp [List.dropWhile_cons, hx]
            rw [hd]; exact h3

/- ----------------------------------------------------------------
Particle-constructor lemmas.
---------------------------------------------------------------- -/

theorem particleShape_cases (n : Int) :
    particleShape n = .ok "CIC" ∨ particleShape n = .ok "TSC"
    ∨ particleShape n = .ok "PCS" ∨ particleShape n = .ok "P4S"
    ∨ particleShape n = .error (.keyErr (toString n)) := by
  unfold particleShape
  split <;> simp

theorem buildParams_shape_err (cb : Collaborators) (a : ParticleArgs) (e : PyErr)
    (hs : particleShape a.shape_order = .error e) :
    buildParams cb a = .error e := by
  simp only [buildParams, hs]

theorem buildParams_missing_element (cb : Collaborators) (a : ParticleArgs)
    (hsp : a.species = "generic_ionizable" ∨ a.species = "ion")
    (hel : a.element = none) (shape : String)
    (hs : particleShape a.shape_order = .ok shape) :
    buildParams cb a
      = .error (.valueErr (a.species ++ " needs `element` argument")) := by
  simp only [buildParams, hs, hel, if_pos hsp]

theorem buildParams_with_element (cb : Collaborators) (a : ParticleArgs)
    (e : String) (hel : a.element = some e) (shape : String)
    (hs : particleShape a.shape_order = .ok shape) :
    buildParams cb a = .error .attrErr ∨ ∃ ps, buildParams cb a = .ok ps := by
  cases hb : buildParams cb a with
  | ok ps => exact Or.inr ⟨ps, rfl⟩
  | error err =>
      left
      by_cases hsp : a.species = "generic_ionizable" ∨ a.species = "ion"
      · cases ht : a.target_species with
        | none =>
            simp only [buildParams, hs, hel, ht, if_pos hsp] at hb
            exact hb.symm
        | some ts =>
            simp only [buildParams, hs, hel, ht, if_pos hsp] at hb
            exact Except.noConfusion hb
      · simp only [buildParams, hs, if_neg hsp] at hb
        exact Except.noConfusion hb

theorem mkParticle_of_err (cb : Collaborators) (a : ParticleArgs) (e : PyErr)
    (h : buildParams cb a = .error e) : mkParticle cb a = .error e := by
  simp only [mkParticle, h]

theorem mkParticle_of_ok (cb : Collaborators) (a : ParticleArgs)
    (ps : List (String × Val)) (h : buildParams cb a = .ok ps) :
    mkParticle cb a = .ok ⟨a.name, mkTemplates cb a ps⟩ := by
  simp only [mkParticle, h]

theorem mkParticle_ok_inv (cb : Collaborators) (a : ParticleArgs) (p : Particle)
    (h : mkParticle cb a = .ok p) :
    ∃ ps, buildParams cb a = .ok ps ∧ p = ⟨a.name, mkTemplates cb a ps⟩ := by
  cases hb : buildParams cb a with
  | error e => rw [mkParticle_of_err cb a e hb] at h; exact Except.noConfusion h
  | ok ps =>
      rw [mkParticle_of_ok cb a ps hb] at h
      exact ⟨ps, rfl, (Except.ok.inj h).symm⟩

/- ----------------------------------------------------------------
Claims.
---------------------------------------------------------------- -/

/-- C1, counterexample: one contribution supplies the comma-appendable
key K with a single empty-string fragment, so the comma-joined result
for K is the empty string; the claim then demands that K be absent from
the final render context, but the code keeps K bound to the empty
string (the `len(...) > 0` guard at writer.py line 75 tests the number
of fragments, which is never zero once the key exists). -/
theorem c1_counterexample :
    String.intercalate ",\n" (commaFragments "f.template" "K" [oEmptyComma]) = ""
    ∧ dictGet (templateArgs [oEmptyComma] "f.template") "K"
        = some (.vstr "") :=
  ⟨by decide, by decide⟩

/-- C1, amended: a comma-appendable key K is absent from the comma
bucket of the final render context exactly when no contribution to the
file supplies K; as soon as one contribution supplies K — even with
only empty-string fragments — K stays in the final render context,
bound to the comma-newline join of all supplied fragments (possibly the
empty string). -/
theorem c1_amended_comma_key_drop (objs : List DomainObject) (f K : String) :
    dictGet (joinComma (mergeFile objs f).commaArgs) K
      = (if commaFragments f K objs = [] then none
         else some (.vstr (String.intercalate ",\n" (commaFragments f K objs))))
    ∧ (commaFragments f K objs ≠ [] →
        dictGet (templateArgs objs f) K
          = some (.vstr (String.intercalate ",\n" (commaFragments f K objs)))) := by
  have hbucket : dictGet (mergeFile objs f).commaArgs K
      = extFrags none (commaFragments f K objs) := commaBucket_mergeFile objs f K
  have hjoin : commaFragments f K objs ≠ [] →
      dictGet (joinComma (mergeFile objs f).commaArgs) K
        = some (.vstr (String.intercalate ",\n" (commaFragments f K objs))) := by
    intro h
    have hlen : (commaFragments f K objs).length > 0 := List.length_pos.mpr h
    rw [dictGet_joinComma, hbucket]
    simp [extFrags, h, hlen]
  constructor
  · by_cases h : commaFragments f K objs = []
    · rw [dictGet_joinComma, hbucket]
      simp [h, extFrags]
    · rw [hjoin h, if_neg h]
  · intro h
    rw [dictGet_templateArgs, hjoin h]
    rfl

/-- C1, witness for the amended claim: the empty-string fragment keeps
the key, bound to the empty string. -/
theorem c1_amended_witness :
    commaFragments "f.template" "K" [oEmptyComma] ≠ []
    ∧ dictGet (templateArgs [oEmptyComma] "f.template") "K"
        = some (.vstr "") := by
  refine ⟨by decide, ?_⟩
  have h := (c1_amended_comma_key_drop [oEmptyComma] "f.template" "K").2 (by decide)
  have e : String.intercalate ",\n"
      (commaFragments "f.template" "K" [oEmptyComma]) = "" := by decide
  rw [e] at h
  exact h

/-- C2, counterexample: the contribution supplies K both as an
appendable fragment ("a") and as a comma-appendable fragment ("b"); the
claim demands that the final render context bind K to the
newline-join "a" of the appendable fragments, but the comma-appendable
binding shadows it and the context holds "b". -/
theorem c2_counterexample :
    appFragments "f.template" "K" [oClash] = ["a"]
    ∧ dictGet (templateArgs [oClash] "f.template") "K"
        ≠ some (.vstr (String.intercalate "\n" ["a"]))
    ∧ dictGet (templateArgs [oClash] "f.template") "K" = some (.vstr "b") :=
  ⟨by decide, by decide, by decide⟩

/-- C2, amended: for an appendableArgs key K appearing in contributions
to a file with fragments f1..fn in object order, the final render
context binds K to f1 "\n" f2 ... "\n" fn, provided no contribution to
that file also supplies K under commaAppendableArgs (a comma-appendable
binding for the same key shadows the appendable one). -/
theorem c2_amended_appendable_join (objs : List DomainObject) (f K : String)
    (happ : appFragments f K objs ≠ [])
    (hcomma : commaFragments f K objs = []) :
    dictGet (templateArgs objs f) K
      = some (.vstr (String.intercalate "\n" (appFragments f K objs))) := by
  rw [dictGet_templateArgs]
  have hc : dictGet (joinComma (mergeFile objs f).commaArgs) K = none := by
    rw [dictGet_joinComma, commaBucket_mergeFile, hcomma]
    rfl
  have ha : dictGet (joinApp (mergeFile objs f).appArgs) K
      = some (.vstr (String.intercalate "\n" (appFragments f K objs))) := by
    rw [dictGet_joinApp, appBucket_mergeFile]
    simp [extFrags, happ]
  rw [hc, ha]
  rfl

/-- C2, witness for the amended claim: two objects contribute "x" and
"y" under the same appendable key; the context holds "x\ny". -/
theorem c2_amended_witness :
    appFragments "f.template" "K" [oAppX, oAppY] = ["x", "y"]
    ∧ dictGet (templateArgs [oAppX, oAppY] "f.template") "K"
        = some (.vstr "x\ny") := by
  refine ⟨by decide, ?_⟩
  have h := c2_amended_appendable_join [oAppX, oAppY] "f.template" "K"
    (by decide) (by decide)
  have e : String.intercalate "\n"
      (appFragments "f.template" "K" [oAppX, oAppY]) = "x\ny" := by decide
  rw [e] at h
  exact h

/-- C3: when contributions to a file carry mainArgs, the accumulated
main-args mapping after the merge loop equals the mainArgs of the last
such contribution in object order (each one wholly overwrites the
accumulation; earlier values are discarded). -/
theorem c3_main_args_last_wins (objs : List DomainObject) (f : String)
    (h : mainsList f objs ≠ []) :
    (mergeFile objs f).mainArgs = lastD (mainsList f objs) [] :=
  mainBucket_mergeFile objs f

/-- C3, witness: contributions with mainArgs a=1 then a=2 for the same
file; the accumulated mapping is the second one and the rendered
context has a = 2. -/
theorem c3_witness :
    mainsList "g.template" [oMainOne, oMainTwo] ≠ []
    ∧ (mergeFile [oMainOne, oMainTwo] "g.template").mainArgs
        = [("a", Val.vstr "2")]
    ∧ dictGet (templateArgs [oMainOne, oMainTwo] "g.template") "a"
        = some (.vstr "2") := by
  refine ⟨by decide, ?_, by decide⟩
  have h := c3_main_args_last_wins [oMainOne, oMainTwo] "g.template" (by decide)
  have e : lastD (mainsList "g.template" [oMainOne, oMainTwo])
      ([] : List (String × Val)) = [("a", Val.vstr "2")] := by decide
  rw [e] at h
  exact h

/-- C4: the ordered list of files processed equals the first-seen
deduplication of all targetFile values (objects in caller order,
contributions in construction order); it has no duplicates, contains
exactly the referenced files, and when every file has a template the
pass succeeds, writing the files in exactly that order, once each. -/
theorem c4_discovery (objs : List DomainObject) :
    filesList objs = firstSeen (allTargetFiles objs)
    ∧ (filesList objs).Nodup
    ∧ (∀ f, f ∈ filesList objs
        ↔ ∃ o, o ∈ objs ∧ ∃ t, t ∈ o.templates ∧ t.filename = f)
    ∧ (∀ (render : String → List (String × Val) → String)
        (templates : List (String × String)) (fs0 : FS),
        (∀ f ∈ filesList objs, (dictGet templates f).isSome = true) →
        WriteSimulationFiles render templates objs fs0
          = .ok ((filesList objs).foldl (writeStep render templates objs) fs0)) := by
  refine ⟨filesList_eq_firstSeen objs, ?_, ?_, ?_⟩
  · rw [filesList_eq_firstSeen]
    exact nodup_foldl_fstep _ _ List.nodup_nil
  · intro f
    rw [filesList_eq_firstSeen, firstSeen, mem_foldl_fstep]
    simp [mem_allTargetFiles]
  · intro render templates fs0 h
    exact runPass_ok render templates objs (filesList objs) fs0 h

/-- C4, witness: two objects referencing files a, b and a again; the
pass writes a.param then b.param, once each. -/
theorem c4_witness :
    filesList [oFilesAB, oFilesA] = ["a.template", "b.template"]
    ∧ WriteSimulationFiles rend0 storeAB [oFilesAB, oFilesA] ⟨[]⟩
        = .ok ⟨[("./include/picongpu/param/a.param", "TA"),
                ("./include/picongpu/param/b.param", "TB")]⟩ := by
  refine ⟨by decide, ?_⟩
  have h := (c4_discovery [oFilesAB, oFilesA]).2.2.2 rend0 storeAB ⟨[]⟩ (by decide)
  have e : (filesList [oFilesAB, oFilesA]).foldl
      (writeStep rend0 storeAB [oFilesAB, oFilesA]) ⟨[]⟩
      = ⟨[("./include/picongpu/param/a.param", "TA"),
          ("./include/picongpu/param/b.param", "TB")]⟩ := by decide
  rw [e] at h
  exact h

/-- C5: a target file whose template loads is written to the
destination derived from its name: first dot-separated segment "run"
routes to the run-configuration directory with "template" replaced by
"cfg", anything else to the parameter directory with "template"
replaced by "param". -/
theorem c5_routing (render : String → List (String × Val) → String)
    (templates : List (String × String)) (objs : List DomainObject)
    (fs : FS) (f tm : String) (htm : dictGet templates f = some tm) :
    writeOne render templates objs fs f
      = .ok ⟨dictInsert fs.files
          (if (pySplitChar '.' f).headD "" = "run" then
            path_etc ++ pyReplace f "template" "cfg"
          else path_include ++ pyReplace f "template" "param")
          (render tm (templateArgs objs f))⟩ := by
  simp [writeOne, htm, destPath]

/-- C5, witness: the spec's two examples, bit exact:
run.something.template lands at ./etc/picongpu/run.something.cfg and
species.template at ./include/picongpu/param/species.param. -/
theorem c5_witness :
    writeOne rend0 storeRouting [] ⟨[]⟩ "run.something.template"
      = .ok ⟨[("./etc/picongpu/run.something.cfg", "RT")]⟩
    ∧ writeOne rend0 storeRouting [] ⟨[]⟩ "species.template"
      = .ok ⟨[("./include/picongpu/param/species.param", "ST")]⟩ := by
  constructor
  · have h := c5_routing rend0 storeRouting [] ⟨[]⟩ "run.something.template" "RT"
      (by decide)
    rw [h]
    decide
  · have h := c5_routing rend0 storeRouting [] ⟨[]⟩ "species.template" "ST"
      (by decide)
    rw [h]
    decide

/-- C6: per key, the final render context is the literal union of the
three merged buckets, the comma-appendable binding shadowing the
appendable binding, which shadows the main-args binding. -/
theorem c6_context_union_precedence (objs : List DomainObject) (f K : String) :
    dictGet (templateArgs objs f) K
      = optOr (dictGet (joinComma (mergeFile objs f).commaArgs) K)
          (optOr (dictGet (joinApp (mergeFile objs f).appArgs) K)
            (dictGet (mergeFile objs f).mainArgs K)) :=
  dictGet_templateArgs objs f K

/-- C7: if a discovered target file has no loadable template, the
whole pass aborts with a template-not-found error naming the first such
file; the disk state in the error is exactly the writes of the files
before it (earlier writes remain, nothing after it is written). -/
theorem c7_template_not_found_aborts
    (render : String → List (String × Val) → String)
    (templates : List (String × String)) (objs : List DomainObject)
    (fs0 : FS) (f : String) (hf : f ∈ filesList objs)
    (hnone : dictGet templates f = none) :
    ∃ missing,
      WriteSimulationFiles render templates objs fs0
        = .error (((filesList objs).takeWhile
              (fun g => (dictGet templates g).isSome)).foldl
            (writeStep render templates objs) fs0, missing)
      ∧ dictGet templates missing = none
      ∧ ((filesList objs).dropWhile
          (fun g => (dictGet templates g).isSome)).head? = some missing :=
  runPass_err render templates objs (filesList objs) fs0 f hf hnone

/-- C7, witness: files a and b are discovered but only a has a
template; the pass aborts naming b.template, with a.param already on
disk. -/
theorem c7_witness :
    "b.template" ∈ filesList [oFilesAB]
    ∧ dictGet storeA "b.template" = none
    ∧ WriteSimulationFiles rend0 storeA [oFilesAB] ⟨[]⟩
        = .error (⟨[("./include/picongpu/param/a.param", "TA")]⟩,
            "b.template") := by
  refine ⟨by decide, by decide, ?_⟩
  rcases c7_template_not_found_aborts rend0 storeA [oFilesAB] ⟨[]⟩ "b.template"
    (by decide) (by decide) with ⟨m, h1, h2, h3⟩
  have e : ((filesList [oFilesAB]).dropWhile
      (fun g => (dictGet storeA g).isSome)).head? = some "b.template" := by decide
  rw [e] at h3
  have hm : "b.template" = m := Option.some.inj h3
  have e2 : ((filesList [oFilesAB]).takeWhile
      (fun g => (dictGet storeA g).isSome)).foldl
        (writeStep rend0 storeA [oFilesAB]) ⟨[]⟩
      = ⟨[("./include/picongpu/param/a.param", "TA")]⟩ := by decide
  rw [e2, ← hm] at h1
  exact h1

/-- C8: constructing a Particle of species "ion" or "generic_ionizable"
with `element` absent raises at construction time, before the
aggregator runs (never yields a particle; with a valid shape order the
error is precisely the missing-element ValueError); supplying an
element never produces that error. -/
theorem c8_missing_element_error (cb : Collaborators) (a : ParticleArgs)
    (hsp : a.species = "ion" ∨ a.species = "generic_ionizable") :
    (a.element = none → ∀ p, mkParticle cb a ≠ .ok p)
    ∧ (a.element = none →
        (a.shape_order = 1 ∨ a.shape_order = 2 ∨ a.shape_order = 3
          ∨ a.shape_order = 4) →
        mkParticle cb a
          = .error (.valueErr (a.species ++ " needs `element` argument")))
    ∧ (∀ e, a.element = some e →
        mkParticle cb a
          ≠ .error (.valueErr (a.species ++ " needs `element` argument"))) := by
  have hsp' : a.species = "generic_ionizable" ∨ a.species = "ion" := hsp.symm
  refine ⟨?_, ?_, ?_⟩
  · intro hel p hcon
    rcases particleShape_cases a.shape_order with hs | hs | hs | hs | hs
    · rw [mkParticle_of_err cb a _
        (buildParams_missing_element cb a hsp' hel _ hs)] at hcon
      exact Except.noConfusion hcon
    · rw [mkParticle_of_err cb a _
        (buildParams_missing_element cb a hsp' hel _ hs)] at hcon
      exact Except.noConfusion hcon
    · rw [mkParticle_of_err cb a _
        (buildParams_missing_element cb a hsp' hel _ hs)] at hcon
      exact Except.noConfusion hcon
    · rw [mkParticle_of_err cb a _
        (buildParams_missing_element cb a hsp' hel _ hs)] at hcon
      exact Except.noConfusion hcon
    · rw [mkParticle_of_err cb a _ (buildParams_shape_err cb a _ hs)] at hcon
      exact Except.noConfusion hcon
  · intro hel hshape
    have hs : ∃ s, particleShape a.shape_order = .ok s := by
      rcases hshape with h | h | h | h <;> rw [h]
      · exact ⟨"CIC", by decide⟩
      · exact ⟨"TSC", by decide⟩
      · exact ⟨"PCS", by decide⟩
      · exact ⟨"P4S", by decide⟩
    rcases hs with ⟨s, hs⟩
    exact mkParticle_of_err cb a _ (buildParams_missing_element cb a hsp' hel s hs)
  · intro e hel hcon
    rcases particleShape_cases a.shape_order with hs | hs | hs | hs | hs
    · rcases buildParams_with_element cb a e hel _ hs with hb | ⟨ps, hb⟩
      · rw [mkParticle_of_err cb a _ hb] at hcon
        simp at hcon
      · rw [mkParticle_of_ok cb a ps hb] at hcon
        exact Except.noConfusion hcon
    · rcases buildParams_with_element cb a e hel _ hs with hb | ⟨ps, hb⟩
      · rw [mkParticle_of_err cb a _ hb] at hcon
        simp at hcon
      · rw [mkParticle_of_ok cb a ps hb] at hcon
        exact Except.noConfusion hcon
    · rcases buildParams_with_element cb a e hel _ hs with hb | ⟨ps, hb⟩
      · rw [mkParticle_of_err cb a _ hb] at hcon
        simp at hcon
      · rw [mkParticle_of_ok cb a ps hb] at hcon
        exact Except.noConfusion hcon
    · rcases buildParams_with_element cb a e hel _ hs with hb | ⟨ps, hb⟩
      · rw [mkParticle_of_err cb a _ hb] at hcon
        simp at hcon
      · rw [mkParticle_of_ok cb a ps hb] at hcon
        exact Except.noConfusion hcon
    · rw [mkParticle_of_err cb a _ (buildParams_shape_err cb a _ hs)] at hcon
      simp at hcon

/-- C8, witness: an ion without element fails with the missing-element
error; the same ion with element "N" constructs successfully, so in
particular it does not fail on that account. -/
theorem c8_witness :
    mkParticle cb0 aIonNoEl = .error (.valueErr "ion needs `element` argument")
    ∧ mkParticle cb0 aIonOk ≠ .error (.valueErr "ion needs `element` argument")
    ∧ mkParticle cb0 aIonOk = .ok pIonOk := by
  refine ⟨?_, ?_, rfl⟩
  · have h := (c8_missing_element_error cb0 aIonNoEl (Or.inl rfl)).2.1 rfl
      (Or.inl rfl)
    have e : aIonNoEl.species ++ " needs `element` argument"
        = "ion needs `element` argument" := by decide
    rw [e] at h
    exact h
  · have h := (c8_missing_element_error cb0 aIonOk (Or.inl rfl)).2.2 "N" rfl
    have e : aIonOk.species ++ " needs `element` argument"
        = "ion needs `element` argument" := by decide
    rw [e] at h
    exact h

/-- C9: every constructed particle's contribution to particle.template
(the second contribution) binds the appendableArgs key Manipulators;
when the species is neither "ion" nor "generic_ionizable" and no
initial temperature is given, the bound fragment is the empty string. -/
theorem c9_manipulators_always_bound (cb : Collaborators) (a : ParticleArgs)
    (p : Particle) (h : mkParticle cb a = .ok p) :
    ∃ t, p.templates.get? 1 = some t
      ∧ t.filename = "particle.template"
      ∧ (appLookup t "Manipulators").isSome = true
      ∧ (a.species ≠ "ion" → a.species ≠ "generic_ionizable" →
          a.initial_temperature = none →
          appLookup t "Manipulators" = some "") := by
  rcases mkParticle_ok_inv cb a p h with ⟨ps, hb, rfl⟩
  have e : appLookup (particleTemplate cb a ps) "Manipulators"
      = some (String.intercalate "\n" (manipulator_list cb a ps)) := by
    simp [particleTemplate, appLookup, dictGet_dictInsert]
  refine ⟨particleTemplate cb a ps, rfl, rfl, ?_, ?_⟩
  · rw [e]
    rfl
  · intro h1 h2 h3
    have hml : manipulator_list cb a ps = [] := by
      simp [manipulator_list, h1, h2, h3]
    rw [e, hml]
    rfl

/-- C9, witness: a plain electron binds Manipulators to the empty
string; merged with a heated electron the newline-joined value
contains a trailing empty line. -/
theorem c9_witness :
    (∃ t, pElectron.templates.get? 1 = some t
      ∧ t.filename = "particle.template"
      ∧ (appLookup t "Manipulators").isSome = true
      ∧ appLookup t "Manipulators" = some "")
    ∧ dictGet (templateArgs [Particle.obj pElectronT, Particle.obj pElectron]
        "particle.template") "Manipulators"
        = some (.vstr "Manipulators.Temperature\n") := by
  refine ⟨?_, by decide⟩
  rcases c9_manipulators_always_bound cb0 aElectron pElectron rfl
    with ⟨t, h1, h2, h3, h4⟩
  exact ⟨t, h1, h2, h3, h4 (by decide) (by decide) rfl⟩

/-- C10: a constructed particle's contribution to
speciesInitialization.template (the fourth contribution) carries the
commaAppendableArgs key CreateManipulate exactly when a density profile
was given or the species is "ion" or "generic_ionizable"; otherwise the
key is absent from the contribution itself. -/
theorem c10_create_manipulate_iff (cb : Collaborators) (a : ParticleArgs)
    (p : Particle) (h : mkParticle cb a = .ok p) :
    ∃ t, p.templates.get? 3 = some t
      ∧ t.filename = "speciesInitialization.template"
      ∧ ((commaLookup t "CreateManipulate").isSome = true
          ↔ (a.density_profile.isSome = true ∨ a.species = "ion"
              ∨ a.species = "generic_ionizable")) := by
  rcases mkParticle_ok_inv cb a p h with ⟨ps, hb, rfl⟩
  refine ⟨speciesInitTemplate cb a ps, rfl, rfl, ?_⟩
  by_cases hsp : a.species = "generic_ionizable" ∨ a.species = "ion"
  · cases hdp : a.density_profile with
    | none =>
        simp [speciesInitTemplate, commaLookup, createManipulate_list,
          hsp, hdp, dictGet]
        tauto
    | some dp =>
        simp [speciesInitTemplate, commaLookup, createManipulate_list,
          hsp, hdp, dictGet]
  · have h1 : ¬ a.species = "generic_ionizable" := fun hh => hsp (Or.inl hh)
    have h2 : ¬ a.species = "ion" := fun hh => hsp (Or.inr hh)
    cases hdp : a.density_profile with
    | none =>
        simp [speciesInitTemplate, commaLookup, createManipulate_list,
          h1, h2, hdp, dictGet]
    | some dp =>
        simp [speciesInitTemplate, commaLookup, createManipulate_list,
          h1, h2, hdp, dictGet]

/-- C10, witness: the ion (with density profile) carries the
CreateManipulate key; the plain electron's contribution omits it. -/
theorem c10_witness :
    (∃ t, pIonOk.templates.get? 3 = some t
      ∧ t.filename = "speciesInitialization.template"
      ∧ (commaLookup t "CreateManipulate").isSome = true)
    ∧ (∃ t2, pElectron.templates.get? 3 = some t2
      ∧ (commaLookup t2 "CreateManipulate").isSome = false) := by
  constructor
  · rcases c10_create_manipulate_iff cb0 aIonOk pIonOk rfl with ⟨t, h1, h2, h3⟩
    exact ⟨t, h1, h2, h3.mpr (Or.inr (Or.inl rfl))⟩
  · exact ⟨_, rfl, by decide⟩

end Pogit
